import Mathlib

/-!
# Verification of `cargo-lookup` (query parsing, catalog lookup, index paths, resolver)

A shallow embedding of the core of the `cargo-lookup` repository
(`src/lib.rs`, `src/main.rs`, `src/error.rs`) together with proofs about it.

Conventions of the embedding:
* Rust strings are Lean `String`s, except in `get_index_path`, which indexes
  by *byte* position in Rust: there the package name is embedded as its list
  of UTF-8 bytes (`List Nat`), and the panics of Rust byte slicing are made
  explicit as `Option.none`.
* The external collaborators (the `semver` version/requirement matcher, the
  `serde_json` line deserializer, and the HTTP fetch) are modelled by
  explicit Lean functions; each is documented at its definition.
* Fallible Rust code returns `Except`; the recursion of the binary's
  `resolve` is made total with an explicit fuel argument, fuel exhaustion
  being a distinguished outcome (`Option.none`) that never corresponds to a
  program behaviour.
-/

namespace CargoLookup

/-- Decidable equality for `Except`, so that concrete runs of the embedded
fallible functions can be settled by `decide`. -/
instance instDecEqExcept {ε α : Type} [DecidableEq ε] [DecidableEq α] :
    DecidableEq (Except ε α) := fun x y =>
  match x, y with
  | .ok a, .ok b =>
    if h : a = b then isTrue (by rw [h]) else isFalse (fun hc => h (Except.ok.inj hc))
  | .error a, .error b =>
    if h : a = b then isTrue (by rw [h]) else isFalse (fun hc => h (Except.error.inj hc))
  | .ok _, .error _ => isFalse (fun hc => Except.noConfusion hc)
  | .error _, .ok _ => isFalse (fun hc => Except.noConfusion hc)

/-! ## Versions and version requirements (model of the external `semver` crate)

`semver::Version` is modelled without pre-release and build-metadata
components: no version literal appearing in this development carries them.
`semver::VersionReq` is a list of comparators; only the `=` (Exact) and `^`
(Caret, also the default for a bare version) operators occur in this
development, so the model carries exactly those, with matching translated
from `semver`'s evaluation rules. -/

structure Version where
  major : Nat
  minor : Nat
  patch : Nat
deriving DecidableEq

inductive Op where
  | exact
  | caret
deriving DecidableEq

/-- One comparator of a version requirement: an operator, a major version,
and optional minor and patch versions (a patch is only present when a minor
is). Model of `semver::Comparator` restricted to the operators used here. -/
structure Comparator where
  op : Op
  major : Nat
  minor : Option Nat
  patch : Option Nat
deriving DecidableEq

/-- `semver`'s matching rule for an `=` comparator: every component that is
present must agree. -/
def Comparator.matchesExact (cmp : Comparator) (v : Version) : Bool :=
  v.major == cmp.major &&
    (match cmp.minor with | none => true | some m => v.minor == m) &&
    (match cmp.patch with | none => true | some p => v.patch == p)

/-- `semver`'s matching rule for a `^` comparator (translated from
`semver`'s `matches_caret`, pre-release handling dropped). -/
def Comparator.matchesCaret (cmp : Comparator) (v : Version) : Bool :=
  if v.major != cmp.major then false
  else
    match cmp.minor with
    | none => true
    | some minor =>
      match cmp.patch with
      | none => if cmp.major > 0 then decide (v.minor ≥ minor) else v.minor == minor
      | some patch =>
        if cmp.major > 0 then
          if v.minor != minor then decide (v.minor > minor)
          else if v.patch != patch then decide (v.patch > patch)
          else true
        else if minor > 0 then
          if v.minor != minor then false
          else if v.patch != patch then decide (v.patch > patch)
          else true
        else v.minor == minor && v.patch == patch

def Comparator.matchesCmp (cmp : Comparator) (v : Version) : Bool :=
  match cmp.op with
  | .exact => cmp.matchesExact v
  | .caret => cmp.matchesCaret v

/-- Model of `semver::VersionReq`: a conjunction of comparators. -/
structure VersionReq where
  comparators : List Comparator
deriving DecidableEq

/-- `VersionReq::matches`: every comparator must match (the version has no
pre-release component in this model, so `semver`'s pre-release gate is
vacuous). -/
def VersionReq.matches (req : VersionReq) (v : Version) : Bool :=
  req.comparators.all (fun c => c.matchesCmp v)

def Op.render : Op → String
  | .exact => "="
  | .caret => "^"

/-- Display of one comparator, as `semver` prints it (`^1.0.0`, `=0.1.11`,
`^0.12`, ...). -/
def Comparator.render (c : Comparator) : String :=
  c.op.render ++ toString c.major ++
    (match c.minor with
     | none => ""
     | some m =>
       "." ++ toString m ++
         (match c.patch with | none => "" | some p => "." ++ toString p))

/-- Display of a requirement, as `semver` prints it: comma-separated
comparators, `*` when there are none. -/
def VersionReq.render (req : VersionReq) : String :=
  match req.comparators with
  | [] => "*"
  | c :: rest => rest.foldl (fun acc cmp => acc ++ ", " ++ cmp.render) c.render

/-- Split a character list on every occurrence of `c` (helper for the
string-processing models below). -/
def splitOnCharAux (c : Char) : List Char → List Char → List (List Char)
  | [], cur => [cur.reverse]
  | x :: xs, cur =>
    if x = c then cur.reverse :: splitOnCharAux c xs []
    else splitOnCharAux c xs (x :: cur)

def splitOnChar (c : Char) (s : List Char) : List (List Char) :=
  splitOnCharAux c s []

/-- Numeric parse of a version component: all digits and non-empty. Model of
the integer parse inside `semver`'s requirement parser. -/
def digitsToNat? (l : List Char) : Option Nat :=
  if l.isEmpty then none
  else if l.all Char.isDigit then
    some (l.foldl (fun n c => n * 10 + (c.toNat - 48)) 0)
  else none

/-- Model of `semver`'s comparator parser, restricted to the grammar used in
this development: an optional `=` or `^` operator (a bare version defaults to
`^`, as in `semver`), then one to three dot-separated numeric components.
Anything else is treated as invalid. -/
def Comparator.parse (s : String) : Option Comparator :=
  let rest : Op × List Char :=
    match s.data with
    | '=' :: cs => (Op.exact, cs)
    | '^' :: cs => (Op.caret, cs)
    | cs => (Op.caret, cs)
  match (splitOnChar '.' rest.2).mapM digitsToNat? with
  | some [a] => some ⟨rest.1, a, none, none⟩
  | some [a, b] => some ⟨rest.1, a, some b, none⟩
  | some [a, b, c] => some ⟨rest.1, a, some b, some c⟩
  | _ => none

/-- Model of `semver::VersionReq::parse`, restricted as `Comparator.parse`
is: a single comparator (no comma-separated conjunctions are used anywhere in
this development). -/
def VersionReq.parse (s : String) : Option VersionReq :=
  (Comparator.parse s).map (fun c => ⟨[c]⟩)

/-! ## Data model (`src/lib.rs`) -/

/-- `Features` from `src/lib.rs` (`BTreeMap<String, Vec<String>>`), modelled
as an association list. -/
abbrev Features := List (String × List String)

/-- `Dependency` from `src/lib.rs`. -/
structure Dependency where
  name : String
  req : VersionReq
  features : List String
  optional : Bool
  default_features : Bool
  target : Option String
  kind : Option String
  registry : Option String
  package : Option String
deriving DecidableEq

/-- `Release` from `src/lib.rs`. -/
structure Release where
  name : String
  vers : Version
  deps : List Dependency
  cksum : String
  features : Features
  yanked : Bool
  links : Option String
  v : Nat
  features2 : Option Features
  rust_version : Option VersionReq
deriving DecidableEq

/-- `error::Error` from `src/error.rs`. The payloads of the variants (the
wrapped `semver`/`ureq`/io/`serde_json` errors) are carried as message
strings. The extra `Panic` variant is not part of the source enum: it makes
the embedding total where the Rust code would panic (see `get_index_path`). -/
inductive Error where
  | InvalidVersion (msg : String)
  | Request (msg : String)
  | Io (msg : String)
  | Serialize (msg : String)
  | Deserialize (msg : String)
  | FromIndexFile (msg : String)
  | Panic (msg : String)
deriving DecidableEq

/-! ## Query (`src/lib.rs`, `Query` / `FromStr for Query`) -/

/-- Model of Rust `str::split_once`: split at the first occurrence of `c`,
or `none` when `c` does not occur. -/
def splitOnceAux (c : Char) : List Char → Option (List Char × List Char)
  | [] => none
  | x :: xs =>
    if x = c then some ([], xs)
    else
      match splitOnceAux c xs with
      | none => none
      | some (pre, post) => some (x :: pre, post)

def splitOnce (s : String) (c : Char) : Option (String × String) :=
  (splitOnceAux c s.data).map (fun p => (String.mk p.1, String.mk p.2))

/-- The default crates.io index URL (`CRATES_IO_INDEX_URL` in `src/lib.rs`). -/
def CRATES_IO_INDEX_URL : String := "https://index.crates.io"

/-- `Query` from `src/lib.rs`. -/
structure Query where
  name : String
  version_req : Option VersionReq
  custom_index : Option String
deriving DecidableEq

/-- `Query::from_str` (`src/lib.rs` lines 66-81). The first `match` mirrors
the Rust
`match name.split_once('@') { Some((name, version)) if !version.is_empty() => (name, Some(version)), _ => (name, None) }`:
in the fallback arm (no `@`, or an empty suffix after `@`) the Rust `name`
refers to the *outer* binding, i.e. the whole input string, so an input such
as `"cargo@"` keeps its trailing `@` in the name. -/
def Query.from_str (s : String) : Except Error Query :=
  let nv : String × Option String :=
    match splitOnce s '@' with
    | some (name, version) =>
      if !version.isEmpty then (name, some version) else (s, none)
    | none => (s, none)
  match nv.2 with
  | some req =>
    match VersionReq.parse req with
    | some r => .ok ⟨nv.1, some r, none⟩
    | none => .error (.InvalidVersion req)
  | none => .ok ⟨nv.1, none, none⟩

/-- `Query::with_index` (`src/lib.rs` lines 86-92): builder-style update of
the custom index. -/
def Query.with_index (q : Query) (custom_index : String) : Query :=
  { q with custom_index := some custom_index }

/-- The index base URL used by `Query::raw_index` (`src/lib.rs` line 96):
`self.custom_index.as_deref().unwrap_or(CRATES_IO_INDEX_URL)`. The HTTP GET
itself is the external fetch collaborator and is not embedded. -/
def Query.index_url (q : Query) : String :=
  q.custom_index.getD CRATES_IO_INDEX_URL

/-! ## Index path mapping (`get_index_path`, `src/lib.rs` lines 297-318)

Rust's `package.len()` and `&package[a..b]` work on UTF-8 *bytes*, and the
slices panic when a bound is out of range or not on a character boundary.
The function is therefore embedded on the list of UTF-8 bytes of the name,
with `none` marking exactly the panicking inputs. -/

/-- UTF-8 encoding of one character (standard encoding, 1-4 bytes). -/
def charUtf8 (c : Char) : List Nat :=
  let n := c.toNat
  if n < 0x80 then [n]
  else if n < 0x800 then
    [0xC0 ||| (n >>> 6), 0x80 ||| (n &&& 0x3F)]
  else if n < 0x10000 then
    [0xE0 ||| (n >>> 12), 0x80 ||| ((n >>> 6) &&& 0x3F), 0x80 ||| (n &&& 0x3F)]
  else
    [0xF0 ||| (n >>> 18), 0x80 ||| ((n >>> 12) &&& 0x3F),
     0x80 ||| ((n >>> 6) &&& 0x3F), 0x80 ||| (n &&& 0x3F)]

/-- The UTF-8 bytes of a string. -/
def utf8Bytes (s : String) : List Nat :=
  (s.data.map charUtf8).flatten

/-- `u8::to_ascii_lowercase` on one byte. -/
def asciiLowerByte (b : Nat) : Nat :=
  if 0x41 ≤ b ∧ b ≤ 0x5A then b + 0x20 else b

/-- `str::to_ascii_lowercase`, byte-wise (it only touches ASCII bytes, so it
is safe byte-by-byte, as in Rust). -/
def toAsciiLowercase (s : List Nat) : List Nat :=
  s.map asciiLowerByte

/-- Model of Rust `str::is_char_boundary` on a byte list: position 0 and the
end are boundaries, an interior position is one exactly when its byte is not
a UTF-8 continuation byte, and positions past the end are not boundaries. -/
def isCharBoundary (s : List Nat) (i : Nat) : Bool :=
  if i = 0 then true
  else
    match s[i]? with
    | some b => decide (b < 0x80) || decide (0xC0 ≤ b)
    | none => decide (i = s.length)

/-- Model of the Rust byte slice `&s[a..b]`: defined when the range is in
bounds and both ends are character boundaries; `none` models the panic. -/
def byteSlice (s : List Nat) (a b : Nat) : Option (List Nat) :=
  if a ≤ b ∧ b ≤ s.length ∧ isCharBoundary s a = true ∧ isCharBoundary s b = true then
    some ((s.drop a).take (b - a))
  else none

/-- `get_index_path` (`src/lib.rs` lines 297-318) on the UTF-8 bytes of the
package name; `none` where the Rust code panics (a byte slice out of bounds
or off a character boundary). -/
def get_index_path (package : List Nat) : Option (List Nat) :=
  let path : Option (List Nat) :=
    match package.length with
    | 1 => some (utf8Bytes "1/" ++ package)
    | 2 => some (utf8Bytes "2/" ++ package)
    | 3 =>
      (byteSlice package 0 1).map
        (fun first_char => utf8Bytes "3/" ++ first_char ++ utf8Bytes "/" ++ package)
    | _ => do
      let first_two_chars ← byteSlice package 0 2
      let next_two_chars ← byteSlice package 2 4
      some (first_two_chars ++ utf8Bytes "/" ++ next_two_chars ++ utf8Bytes "/" ++ package)
  path.map toAsciiLowercase

/-- The index-path function as the specification words it (its §4.1 / §8):
branch by length, with the length ≥ 4 branch
`lower(name)[0:2] + "/" + lower(name)[2:4] + "/" + lower(name)`, the result
always lower-cased. Stated on the same byte-list representation, to be
compared with `get_index_path`. -/
def specIndexPath (p : List Nat) : List Nat :=
  let lower := toAsciiLowercase p
  match p.length with
  | 1 => utf8Bytes "1/" ++ lower
  | 2 => utf8Bytes "2/" ++ lower
  | 3 => utf8Bytes "3/" ++ lower.take 1 ++ utf8Bytes "/" ++ lower
  | _ => lower.take 2 ++ utf8Bytes "/" ++ (lower.drop 2).take 2 ++ utf8Bytes "/" ++ lower

/-! ## Index record parsing and the package catalog (`src/lib.rs`) -/

/-- Strip one trailing carriage return (for the `lines` model). -/
def stripCR (l : List Char) : List Char :=
  if l.getLast? = some '\r' then l.dropLast else l

/-- Model of Rust `str::lines`: split on `'\n'`, the final line ending being
optional, and a carriage return preceding a line feed stripped. -/
def rustLines (s : String) : List String :=
  if s.data.isEmpty then []
  else
    let parts := splitOnChar '\n' s.data
    let terminated := parts.dropLast.map stripCR
    let lastPart := (parts.getLast?.getD [])
    let allParts := if lastPart.isEmpty then terminated else terminated ++ [lastPart]
    allParts.map String.mk

/-- `Package` from `src/lib.rs`; `index_path` is kept in the byte
representation that `get_index_path` produces. -/
structure Package where
  name : String
  index_path : List Nat
  releases : List Release
deriving DecidableEq

/-- `Package::into_latest` (`self.releases.pop()`): the last release. -/
def Package.into_latest (p : Package) : Option Release :=
  p.releases.getLast?

/-- `Package::latest` (`self.releases.last()`). -/
def Package.latest (p : Package) : Option Release :=
  p.releases.getLast?

/-- `Package::into_version` (`src/lib.rs` lines 166-171): scan the releases
in reverse order and return the first whose version satisfies the
requirement. -/
def Package.into_version (p : Package) (version_req : VersionReq) : Option Release :=
  p.releases.reverse.find? (fun release => version_req.matches release.vers)

/-- `Package::version` (`src/lib.rs` lines 179-184): same scan as
`into_version` (the Rust difference is only by-reference vs by-value). -/
def Package.version (p : Package) (version_req : VersionReq) : Option Release :=
  p.releases.reverse.find? (fun release => version_req.matches release.vers)

/-- `Package::from_index` (`src/lib.rs` lines 187-212), parameterised by the
external `serde_json::from_str::<Release>` line deserializer: each line is
deserialized (the first failure aborting the whole parse, as Rust
`collect::<Result<_>>` does), the package name is taken from the last
release, and the index path is derived from that name. A `Panic` error marks
the case where `get_index_path` would panic on the resulting name. -/
def Package.from_index (parseLine : String → Except Error Release) (content : String) :
    Except Error Package := do
  let releases ← (rustLines content).mapM parseLine
  match releases.getLast? with
  | none => .error (.FromIndexFile "empty")
  | some last =>
    match get_index_path (utf8Bytes last.name) with
    | some p => .ok ⟨last.name, p, releases⟩
    | none => .error (.Panic "slice index out of bounds or not on a char boundary")

/-! ## The resolver (`src/main.rs`)

`resolve` drives `Query::submit`, which performs the HTTP fetch, the index
parse and the release selection. The fetch is the external collaborator, so
the whole of `query.submit()` is abstracted as an environment
`env : Query → Except Error (Option Release)`; `envOf` below instantiates it
from a finite registry through the embedded catalog operations, mirroring the
real composition. The recursion is made total by a fuel argument: `none`
means the fuel ran out and never corresponds to a behaviour of the program
(`resolveF_mono` and the concrete theorems show the fuel is irrelevant once
large enough). -/

/-- `Depth` from `src/main.rs`. -/
inductive Depth where
  | infinite
  | restricted (max : Nat)
deriving DecidableEq

/-- The two fields of `cli::Options` that `resolve` reads. The remaining
fields of the CLI options (output type, format, delimiter, index URL,
max depth) only select output formatting or are passed to `resolve` through
other arguments. -/
structure Options where
  recursive : Bool
  ignore_missing : Bool
deriving DecidableEq

/-- The depth `main` passes to `resolve`
(`options.max_depth.map(Depth::Restricted).unwrap_or(Depth::Infinite)`). -/
def resolveDepth (max_depth : Option Nat) : Depth :=
  (max_depth.map Depth.restricted).getD Depth.infinite

/-- An error surfaced by the binary's `resolve`: a library error wrapped by
`anyhow!`, or the ad-hoc message produced by `bail!`. -/
inductive MainError where
  | lib (e : Error)
  | message (msg : String)
deriving DecidableEq

/-- The query construction at the top of `resolve` (`src/main.rs` lines
84-87): parse the spec, applying the custom index when one is given. -/
def resolveQuery (package : String) (index : Option String) : Except Error Query :=
  match index with
  | some custom => (Query.from_str package).map (fun q => q.with_index custom)
  | none => Query.from_str package

/-- The cycle guard of `resolve` (`src/main.rs` lines 114-117):
`resolved.iter().any(|res| name == res.name && version_req.matches(&res.vers))`. -/
def cycleGuard (resolved : List Release) (name : String) (version_req : VersionReq) : Bool :=
  resolved.any (fun res => name == res.name && version_req.matches res.vers)

/-- The `for sub in deps` loop of `resolve` (`src/main.rs` lines 108-122),
with the recursive call abstracted as `recur`: the effective name is
`sub.package` when the dependency is renamed, else `sub.name`; the synthetic
spec is `"{name}@{version_req}"`; a dependency already satisfied by an
accumulated release is skipped; otherwise the resolver recurses, an error
aborting the loop. -/
def resolveStepDeps (recur : String → List Release → Option (Except MainError (List Release))) :
    List Dependency → List Release → Option (Except MainError (List Release))
  | [], resolved => some (.ok resolved)
  | sub :: rest, resolved =>
    let name := sub.package.getD sub.name
    let version_req := sub.req
    let sub_query := name ++ "@" ++ version_req.render
    if cycleGuard resolved name version_req then
      resolveStepDeps recur rest resolved
    else
      match recur sub_query resolved with
      | none => none
      | some (.error e) => some (.error e)
      | some (.ok resolved) => resolveStepDeps recur rest resolved

/-- `resolve` (`src/main.rs` lines 77-126), with fuel. The accumulated
sequence is threaded functionally (the Rust `&mut Vec<Release>`); on error
the Rust caller discards the accumulator, so only the error is returned.
The `match` on `env query` mirrors the Rust
`match query.submit() { Ok(Some(result)) => result, _ if options.ignore_missing => return Ok(()), Ok(None) => bail!(..), Err(other) => return Err(..) }`. -/
def resolveF (env : Query → Except Error (Option Release)) (opts : Options) :
    Nat → String → Option String → Depth → List Release →
      Option (Except MainError (List Release))
  | 0, _, _, _, _ => none
  | fuel + 1, package, index, depth, resolved =>
    match resolveQuery package index with
    | .error e => some (.error (.lib e))
    | .ok query =>
      match env query with
      | .ok (some result) =>
        let deps := result.deps
        let resolved := resolved ++ [result]
        if opts.recursive &&
            (depth == Depth.infinite ||
              (match depth with
               | .restricted max => decide (max > 1)
               | .infinite => false)) then
          let depth' : Depth :=
            match depth with
            | .infinite => .infinite
            | .restricted max => .restricted (max - 1)
          resolveStepDeps (fun spec acc => resolveF env opts fuel spec index depth' acc)
            deps resolved
        else some (.ok resolved)
      | .ok none =>
        if opts.ignore_missing then some (.ok resolved)
        else
          some (.error (.message ("failed to find a matching release of `" ++ package ++ "`")))
      | .error e =>
        if opts.ignore_missing then some (.ok resolved)
        else some (.error (.lib e))

/-! ## Concrete fixtures for the theorems -/

/-- A release with the fields not under test held at defaults. -/
def mkRelease (name : String) (vers : Version) (yanked : Bool) (deps : List Dependency) :
    Release :=
  { name := name, vers := vers, deps := deps, cksum := "", features := [],
    yanked := yanked, links := none, v := 1, features2 := none, rust_version := none }

/-- A dependency with the fields not under test held at defaults. -/
def mkDep (name : String) (req : VersionReq) (package : Option String) : Dependency :=
  { name := name, req := req, features := [], optional := false,
    default_features := true, target := none, kind := none, registry := none,
    package := package }

/-- A `Query::submit` environment built from a finite registry of packages:
an unknown name fails as the HTTP fetch of a missing index file does (the
`Request` error of `Query::raw_index`), and a known one selects a release
exactly as `Query::submit` does — `into_version` under a requirement,
`into_latest` without one. -/
def envOf (registry : List Package) (q : Query) : Except Error (Option Release) :=
  match registry.find? (fun p => p.name == q.name) with
  | none => .error (.Request "status 404")
  | some p =>
    match q.version_req with
    | some req => .ok (p.into_version req)
    | none => .ok p.into_latest

/-- The requirement `^1.0.0`. -/
def req100 : VersionReq := ⟨[⟨Op.caret, 1, some 0, some 0⟩]⟩

/-- Cyclic scenario, generic in the versions and requirements: package A at
version `vA` depends on B under `reqAB`. -/
def relAg (vA : Version) (reqAB : VersionReq) : Release :=
  mkRelease "A" vA false [mkDep "B" reqAB none]

/-- Cyclic scenario: package B at version `vB` depends back on A under
`reqBA`. -/
def relBg (vB : Version) (reqBA : VersionReq) : Release :=
  mkRelease "B" vB false [mkDep "A" reqBA none]

/-- The two-package registry of the cyclic scenario. -/
def regAB (vA vB : Version) (reqAB reqBA : VersionReq) : List Package :=
  [⟨"A", utf8Bytes "1/a", [relAg vA reqAB]⟩, ⟨"B", utf8Bytes "1/b", [relBg vB reqBA]⟩]

/-- Depth scenario: R depends on D1, D1 depends on D2, D2 depends on
nothing. -/
def relD2 : Release := mkRelease "D2" ⟨1, 0, 0⟩ false []

def relD1 : Release := mkRelease "D1" ⟨1, 0, 0⟩ false [mkDep "D2" req100 none]

def relR : Release := mkRelease "R" ⟨1, 0, 0⟩ false [mkDep "D1" req100 none]

/-- The registry environment of the depth scenario. -/
def envRD : Query → Except Error (Option Release) :=
  envOf [⟨"R", utf8Bytes "1/r", [relR]⟩, ⟨"D1", utf8Bytes "2/d1", [relD1]⟩,
         ⟨"D2", utf8Bytes "2/d2", [relD2]⟩]

/-- Recursive resolution with errors surfaced (the CLI defaults
`--recursive` on, `--ignore-missing` off). -/
def optsRec : Options := ⟨true, false⟩

/-- The releases of the catalog example: 0.1.8, then 0.1.11 (yanked), then
0.1.12, in oldest-to-newest file order. -/
def libc008 : Release := mkRelease "libc" ⟨0, 1, 8⟩ false []

def libc0111 : Release := mkRelease "libc" ⟨0, 1, 11⟩ true []

def libc0112 : Release := mkRelease "libc" ⟨0, 1, 12⟩ false []

/-- The catalog with releases `[0.1.8, 0.1.11 (yanked), 0.1.12]`. -/
def pkgLibc : Package := ⟨"libc", utf8Bytes "li/bc/libc", [libc008, libc0111, libc0112]⟩

/-- Model of the external `serde_json::from_str::<Release>` line
deserializer, as a finite table on the line texts used in this development
(the wire syntax itself belongs to the external collaborator): the two
recognized lines deserialize to concrete releases, and every other line —
in particular an empty or blank one, which is not a JSON value — fails with
a `Deserialize` error, as `serde_json` does (`"EOF while parsing a value"`
on empty input). -/
def modelJsonParse (line : String) : Except Error Release :=
  if line = "release libc 0.1.8" then .ok libc008
  else if line = "release libc 0.1.12" then .ok libc0112
  else .error (.Deserialize "EOF while parsing a value")

/-- The requirement `^0.1.0`. -/
def caret010 : VersionReq := ⟨[⟨Op.caret, 0, some 1, some 0⟩]⟩

/-- The requirement `=0.1.11`. -/
def exact0111 : VersionReq := ⟨[⟨Op.exact, 0, some 1, some 11⟩]⟩

/-! ## Helper lemmas -/

/-- On an all-ASCII byte list every position up to the length is a character
boundary. -/
theorem ascii_isCharBoundary {p : List Nat} (hascii : ∀ b ∈ p, b < 0x80)
    {i : Nat} (hi : i ≤ p.length) : isCharBoundary p i = true := by
  unfold isCharBoundary
  by_cases h0 : i = 0
  · simp [h0]
  · rw [if_neg h0]
    cases hb : p[i]? with
    | some b =>
      have hmem : b ∈ p := List.getElem?_mem hb
      simp [hascii b hmem]
    | none =>
      have hlen : p.length ≤ i := List.getElem?_eq_none_iff.mp hb
      simp [le_antisymm hi hlen]

/-- On an all-ASCII byte list an in-bounds slice never panics. -/
theorem byteSlice_ascii {p : List Nat} (hascii : ∀ b ∈ p, b < 0x80)
    {a b : Nat} (hab : a ≤ b) (hbl : b ≤ p.length) :
    byteSlice p a b = some ((p.drop a).take (b - a)) := by
  unfold byteSlice
  rw [if_pos]
  exact ⟨hab, hbl, ascii_isCharBoundary hascii (le_trans hab hbl),
    ascii_isCharBoundary hascii hbl⟩

theorem toAsciiLowercase_append (x y : List Nat) :
    toAsciiLowercase (x ++ y) = toAsciiLowercase x ++ toAsciiLowercase y :=
  List.map_append _ _ _

theorem lower_lit_one : toAsciiLowercase (utf8Bytes "1/") = utf8Bytes "1/" := by decide

theorem lower_lit_two : toAsciiLowercase (utf8Bytes "2/") = utf8Bytes "2/" := by decide

theorem lower_lit_three : toAsciiLowercase (utf8Bytes "3/") = utf8Bytes "3/" := by decide

theorem lower_lit_slash : toAsciiLowercase (utf8Bytes "/") = utf8Bytes "/" := by decide

/-- On non-empty all-ASCII names `get_index_path` never panics and agrees
with the specification formula branch by branch. -/
theorem gip_ascii : ∀ (p : List Nat), p ≠ [] → (∀ b ∈ p, b < 0x80) →
    get_index_path p = some (specIndexPath p) := by
  intro p hne hascii
  match p with
  | [] => exact absurd rfl hne
  | [a] =>
    calc get_index_path [a] = some (toAsciiLowercase (utf8Bytes "1/" ++ [a])) := rfl
      _ = some (utf8Bytes "1/" ++ toAsciiLowercase [a]) := by
          rw [toAsciiLowercase_append, lower_lit_one]
      _ = some (specIndexPath [a]) := rfl
  | [a, b] =>
    calc get_index_path [a, b] = some (toAsciiLowercase (utf8Bytes "2/" ++ [a, b])) := rfl
      _ = some (utf8Bytes "2/" ++ toAsciiLowercase [a, b]) := by
          rw [toAsciiLowercase_append, lower_lit_two]
      _ = some (specIndexPath [a, b]) := rfl
  | [a, b, c] =>
    have hs : byteSlice [a, b, c] 0 1 = some [a] := by
      simpa using byteSlice_ascii hascii (by omega) (by simp)
    calc get_index_path [a, b, c]
        = ((byteSlice [a, b, c] 0 1).map
            (fun first_char => utf8Bytes "3/" ++ first_char ++ utf8Bytes "/" ++ [a, b, c])).map
            toAsciiLowercase := rfl
      _ = some (toAsciiLowercase (utf8Bytes "3/" ++ [a] ++ utf8Bytes "/" ++ [a, b, c])) := by
          rw [hs]; rfl
      _ = some (utf8Bytes "3/" ++ toAsciiLowercase [a] ++ utf8Bytes "/" ++
            toAsciiLowercase [a, b, c]) := by
          rw [show utf8Bytes "3/" ++ [a] ++ utf8Bytes "/" ++ [a, b, c] =
                utf8Bytes "3/" ++ ([a] ++ (utf8Bytes "/" ++ [a, b, c])) by simp,
              toAsciiLowercase_append, toAsciiLowercase_append, toAsciiLowercase_append,
              lower_lit_three, lower_lit_slash]
          simp
      _ = some (specIndexPath [a, b, c]) := rfl
  | a :: b :: c :: d :: rest =>
    have h02 : byteSlice (a :: b :: c :: d :: rest) 0 2 = some [a, b] := by
      simpa using byteSlice_ascii hascii (by omega) (by simp)
    have h24 : byteSlice (a :: b :: c :: d :: rest) 2 4 = some [c, d] := by
      simpa using byteSlice_ascii hascii (by omega) (by simp)
    calc get_index_path (a :: b :: c :: d :: rest)
        = ((byteSlice (a :: b :: c :: d :: rest) 0 2).bind (fun first_two =>
            (byteSlice (a :: b :: c :: d :: rest) 2 4).bind (fun next_two =>
              some (first_two ++ utf8Bytes "/" ++ next_two ++ utf8Bytes "/" ++
                (a :: b :: c :: d :: rest))))).map toAsciiLowercase := rfl
      _ = some (toAsciiLowercase ([a, b] ++ utf8Bytes "/" ++ [c, d] ++ utf8Bytes "/" ++
            (a :: b :: c :: d :: rest))) := by rw [h02, h24]; rfl
      _ = some (toAsciiLowercase [a, b] ++ utf8Bytes "/" ++ toAsciiLowercase [c, d] ++
            utf8Bytes "/" ++ toAsciiLowercase (a :: b :: c :: d :: rest)) := by
          rw [show [a, b] ++ utf8Bytes "/" ++ [c, d] ++ utf8Bytes "/" ++
                (a :: b :: c :: d :: rest) =
              [a, b] ++ (utf8Bytes "/" ++ ([c, d] ++ (utf8Bytes "/" ++
                (a :: b :: c :: d :: rest)))) by simp,
              toAsciiLowercase_append, toAsciiLowercase_append, toAsciiLowercase_append,
              toAsciiLowercase_append, lower_lit_slash]
          simp
      _ = some (specIndexPath (a :: b :: c :: d :: rest)) := rfl

/-- A byte length of exactly 3 with an interior first byte slice boundary off
a character boundary panics. -/
theorem gip_len3_panic : ∀ (p : List Nat), p.length = 3 → isCharBoundary p 1 = false →
    get_index_path p = none := by
  intro p hlen hbnd
  match p, hlen with
  | [a, b, c], _ =>
    have hs : byteSlice [a, b, c] 0 1 = none := by
      unfold byteSlice
      rw [if_neg]
      intro hcon
      rw [hbnd] at hcon
      exact absurd hcon.2.2.2 (by simp)
    calc get_index_path [a, b, c]
        = ((byteSlice [a, b, c] 0 1).map
            (fun first_char => utf8Bytes "3/" ++ first_char ++ utf8Bytes "/" ++ [a, b, c])).map
            toAsciiLowercase := rfl
      _ = none := by rw [hs]; rfl

/-- A byte length of at least 4 with the boundary at byte 2 or at byte 4 off
a character boundary panics. -/
theorem gip_len4_panic : ∀ (p : List Nat), 4 ≤ p.length →
    (isCharBoundary p 2 = false ∨ isCharBoundary p 4 = false) →
    get_index_path p = none := by
  intro p hlen hbnd
  match p, hlen with
  | a :: b :: c :: d :: rest, _ =>
    have hshape : get_index_path (a :: b :: c :: d :: rest) =
        ((byteSlice (a :: b :: c :: d :: rest) 0 2).bind (fun first_two =>
          (byteSlice (a :: b :: c :: d :: rest) 2 4).bind (fun next_two =>
            some (first_two ++ utf8Bytes "/" ++ next_two ++ utf8Bytes "/" ++
              (a :: b :: c :: d :: rest))))).map toAsciiLowercase := rfl
    rcases hbnd with hb2 | hb4
    · have hs : byteSlice (a :: b :: c :: d :: rest) 0 2 = none := by
        unfold byteSlice
        rw [if_neg]
        intro hcon
        rw [hb2] at hcon
        exact absurd hcon.2.2.2 (by simp)
      rw [hshape, hs]; rfl
    · have hs : byteSlice (a :: b :: c :: d :: rest) 2 4 = none := by
        unfold byteSlice
        rw [if_neg]
        intro hcon
        rw [hb4] at hcon
        exact absurd hcon.2.2.2 (by simp)
      rw [hshape, hs]
      cases byteSlice (a :: b :: c :: d :: rest) 0 2 <;> rfl

/-- A successful index parse always carries at least one release. -/
theorem from_index_ok_nonempty (parseLine : String → Except Error Release)
    (content : String) (pkg : Package)
    (h : Package.from_index parseLine content = .ok pkg) : pkg.releases ≠ [] := by
  intro hnil
  unfold Package.from_index at h
  cases hmap : (rustLines content).mapM parseLine with
  | error e => rw [hmap] at h; exact absurd h (by simp [Bind.bind, Except.bind])
  | ok releases =>
    rw [hmap] at h
    simp only [Bind.bind, Except.bind] at h
    cases hlast : releases.getLast? with
    | none => rw [hlast] at h; exact absurd h (by simp)
    | some last =>
      rw [hlast] at h
      dsimp only at h
      cases hp : get_index_path (utf8Bytes last.name) with
      | none => rw [hp] at h; exact absurd h (by simp)
      | some path =>
        rw [hp] at h
        dsimp only at h
        obtain rfl : (⟨last.name, path, releases⟩ : Package) = pkg := Except.ok.inj h
        rw [show Package.releases ⟨last.name, path, releases⟩ = releases from rfl] at hnil
        subst hnil
        simp at hlast

/-- The first failing line aborts the whole index parse with that line's
error, as Rust `collect::<Result<..>>` does. -/
theorem from_index_first_error (parseLine : String → Except Error Release)
    (content : String) (l : String) (ls : List String) (e : Error)
    (hlines : rustLines content = l :: ls) (hparse : parseLine l = .error e) :
    Package.from_index parseLine content = .error e := by
  unfold Package.from_index
  rw [hlines, List.mapM_cons, hparse]
  rfl

/-- `splitOnceAux` decomposes its input at the separator it found. -/
theorem splitOnceAux_append (c : Char) :
    ∀ (l pre post : List Char), splitOnceAux c l = some (pre, post) → l = pre ++ c :: post := by
  intro l
  induction l with
  | nil => intro pre post h; exact absurd h (by simp [splitOnceAux])
  | cons x xs ih =>
    intro pre post h
    simp only [splitOnceAux] at h
    by_cases hx : x = c
    · rw [if_pos hx] at h
      simp only [Option.some.injEq, Prod.mk.injEq] at h
      obtain ⟨rfl, rfl⟩ := h
      rw [hx, List.nil_append]
    · rw [if_neg hx] at h
      cases hsplit : splitOnceAux c xs with
      | none => rw [hsplit] at h; exact absurd h (by simp)
      | some pq =>
        obtain ⟨pre', post'⟩ := pq
        rw [hsplit] at h
        simp only [Option.some.injEq, Prod.mk.injEq] at h
        obtain ⟨rfl, rfl⟩ := h
        simpa using ih pre' post' hsplit

/-- When the separator does not occur in the prefix, `splitOnceAux` splits
exactly at its first occurrence. -/
theorem splitOnceAux_of_not_mem (c : Char) :
    ∀ (l t : List Char), c ∉ l → splitOnceAux c (l ++ c :: t) = some (l, t) := by
  intro l
  induction l with
  | nil => intro t _; simp [splitOnceAux]
  | cons x xs ih =>
    intro t hc
    have hx : x ≠ c := fun h => hc (by rw [h]; exact List.mem_cons_self ..)
    simp only [List.cons_append, splitOnceAux, List.append_eq]
    rw [if_neg hx, ih t (fun h => hc (List.mem_cons_of_mem _ h))]

/-- `split_once` on a string of the shape `n@t` with no `@` in `n`. -/
theorem splitOnce_append (n t : String) (hn : '@' ∉ n.data) :
    splitOnce (n ++ "@" ++ t) '@' = some (n, t) := by
  unfold splitOnce
  have hdata : (n ++ "@" ++ t).data = n.data ++ '@' :: t.data := by
    simp [String.data_append]
  rw [hdata, splitOnceAux_of_not_mem '@' n.data t.data hn]
  rfl

/-- Parsing a synthetic spec `n@t` with a valid non-empty requirement text
yields the query with name `n` and that requirement. -/
theorem from_str_at (n t : String) (hn : '@' ∉ n.data) (hne : t ≠ "")
    (r : VersionReq) (hp : VersionReq.parse t = some r) :
    Query.from_str (n ++ "@" ++ t) = .ok ⟨n, some r, none⟩ := by
  have hemp : t.isEmpty = false := by
    cases h : t.isEmpty
    · rfl
    · exact absurd ((String.isEmpty_iff t).mp h) hne
  unfold Query.from_str
  rw [splitOnce_append n t hn]
  simp only [hemp, Bool.not_false, if_true, hp]

/-- A requirement whose rendering parses back is rendered non-empty. -/
theorem parse_render_ne_empty {r : VersionReq}
    (hp : VersionReq.parse (VersionReq.render r) = some r) : VersionReq.render r ≠ "" := by
  intro h
  rw [h] at hp
  rw [show VersionReq.parse "" = none from by decide] at hp
  exact Option.noConfusion hp

/-- The dependency loop is monotone in the recursion oracle: enlarging the
fuel of the recursive calls preserves every settled outcome. -/
theorem resolveStepDeps_mono
    {recur recur' : String → List Release → Option (Except MainError (List Release))}
    (h : ∀ s acc r, recur s acc = some r → recur' s acc = some r) :
    ∀ (deps : List Dependency) (resolved : List Release) (r : Except MainError (List Release)),
      resolveStepDeps recur deps resolved = some r →
      resolveStepDeps recur' deps resolved = some r := by
  intro deps
  induction deps with
  | nil => intro resolved r hr; exact hr
  | cons sub rest ih =>
    intro resolved r hr
    simp only [resolveStepDeps] at hr ⊢
    by_cases hg : cycleGuard resolved (sub.package.getD sub.name) sub.req = true
    · rw [if_pos hg] at hr ⊢
      exact ih _ _ hr
    · rw [if_neg hg] at hr ⊢
      cases hrec : recur (sub.package.getD sub.name ++ "@" ++ sub.req.render) resolved with
      | none => rw [hrec] at hr; exact absurd hr (by simp)
      | some res =>
        rw [hrec] at hr
        rw [h _ _ _ hrec]
        cases res with
        | error e => exact hr
        | ok acc => exact ih _ _ hr

/-- Fuel monotonicity: any outcome reached with some amount of fuel is
reached with any larger amount, so fuel exhaustion never hides a programme
behaviour once the fuel is large enough. -/
theorem resolveF_mono (env : Query → Except Error (Option Release)) (opts : Options) :
    ∀ (fuel fuel' : Nat), fuel ≤ fuel' →
      ∀ (package : String) (index : Option String) (depth : Depth)
        (resolved : List Release) (r : Except MainError (List Release)),
        resolveF env opts fuel package index depth resolved = some r →
        resolveF env opts fuel' package index depth resolved = some r := by
  intro fuel
  induction fuel with
  | zero =>
    intro fuel' _ pkg idx d res r h
    exact absurd h (by simp [resolveF])
  | succ fuel ih =>
    intro fuel' hle pkg idx d res r h
    obtain ⟨f', rfl⟩ : ∃ f', fuel' = f' + 1 := ⟨fuel' - 1, by omega⟩
    have hff : fuel ≤ f' := by omega
    simp only [resolveF] at h ⊢
    cases hq : resolveQuery pkg idx with
    | error e => rw [hq] at h; exact h
    | ok query =>
      rw [hq] at h
      dsimp only at h ⊢
      cases henv : env query with
      | error e => rw [henv] at h; exact h
      | ok o =>
        rw [henv] at h
        cases o with
        | none => exact h
        | some result =>
          dsimp only at h ⊢
          split at h
          next hc =>
            rw [if_pos hc]
            exact resolveStepDeps_mono (fun s acc rr hrr => ih f' hff s idx _ acc rr hrr) _ _ _ h
          next hc =>
            rw [if_neg hc]
            exact h

/-- Symbolic run of the cyclic scenario at fuel 3: A and B are each resolved
once, B's dependency back on A being skipped by the cycle guard. -/
theorem cycle_run (vA vB : Version) (reqAB reqBA : VersionReq)
    (hm1 : reqAB.matches vB = true) (hm2 : reqBA.matches vA = true)
    (hp1 : VersionReq.parse (VersionReq.render reqAB) = some reqAB) :
    resolveF (envOf (regAB vA vB reqAB reqBA)) optsRec 3 "A" none .infinite [] =
      some (.ok [relAg vA reqAB, relBg vB reqBA]) := by
  have hneB : VersionReq.render reqAB ≠ "" := parse_render_ne_empty hp1
  have hqB : Query.from_str ("B" ++ "@" ++ VersionReq.render reqAB) =
      .ok ⟨"B", some reqAB, none⟩ :=
    from_str_at "B" _ (by decide) hneB reqAB hp1
  have henvB : envOf (regAB vA vB reqAB reqBA) ⟨"B", some reqAB, none⟩ =
      .ok (some (relBg vB reqBA)) := by
    show Except.ok (Package.into_version ⟨"B", utf8Bytes "1/b", [relBg vB reqBA]⟩ reqAB) = _
    unfold Package.into_version
    simp [relBg, mkRelease, hm1]
  have hcond : (optsRec.recursive && (Depth.infinite == Depth.infinite || false)) = true := by
    decide
  have hguardB : cycleGuard [relAg vA reqAB, relBg vB reqBA] "A" reqBA = true := by
    simp [cycleGuard, relAg, mkRelease, hm2]
  have hB : resolveF (envOf (regAB vA vB reqAB reqBA)) optsRec 2
      ("B" ++ "@" ++ VersionReq.render reqAB) none .infinite [relAg vA reqAB] =
      some (.ok [relAg vA reqAB, relBg vB reqBA]) := by
    rw [resolveF]
    have hq2 : resolveQuery ("B" ++ "@" ++ VersionReq.render reqAB) none =
        .ok ⟨"B", some reqAB, none⟩ := hqB
    rw [hq2]
    dsimp only
    rw [henvB]
    dsimp only
    rw [if_pos hcond]
    have hdeps : (relBg vB reqBA).deps = [mkDep "A" reqBA none] := rfl
    rw [hdeps]
    simp only [List.singleton_append]
    have hname : ((mkDep "A" reqBA none).package.getD (mkDep "A" reqBA none).name) = "A" := rfl
    have hreq : (mkDep "A" reqBA none).req = reqBA := rfl
    simp only [resolveStepDeps, hname, hreq, hguardB, eq_self_iff_true, if_true]
  rw [resolveF]
  have hqA : resolveQuery "A" none = .ok ⟨"A", none, none⟩ := by decide
  rw [hqA]
  dsimp only
  have henvA : envOf (regAB vA vB reqAB reqBA) ⟨"A", none, none⟩ =
      .ok (some (relAg vA reqAB)) := rfl
  rw [henvA]
  dsimp only
  rw [if_pos hcond]
  have hdepsA : (relAg vA reqAB).deps = [mkDep "B" reqAB none] := rfl
  rw [hdepsA]
  simp only [List.nil_append]
  have hnameA : ((mkDep "B" reqAB none).package.getD (mkDep "B" reqAB none).name) = "B" := rfl
  have hreqA : (mkDep "B" reqAB none).req = reqAB := rfl
  have hguardA : cycleGuard [relAg vA reqAB] "B" reqAB = false := by
    simp [cycleGuard, relAg, mkRelease]
  simp only [resolveStepDeps, hnameA, hreqA, hguardA]
  rw [if_neg (by simp : ¬(false = true))]
  rw [hB]

/-! ## Claim theorems -/

/-- Claim C1, counterexample: in the depth scenario R → D1 → D2, recursive
resolution with max-depth = 1 accumulates only R — the claimed D1 is absent,
because `resolve` only recurses when the restricted depth is strictly
greater than 1. -/
theorem c1_counterexample :
    resolveF envRD optsRec 9 "R" none (resolveDepth (some 1)) [] = some (.ok [relR]) ∧
    relD1 ∉ [relR] := by decide

/-- Claim C1, amended: with recursion enabled, a max-depth of 1 accumulates
the root only; max-depth 2 accumulates R and D1 but not D2; max-depth 3
accumulates all three — a depth limit of N permits the root plus N − 1
levels of transitive expansion, not N. -/
theorem c1_depth_theorem :
    resolveF envRD optsRec 9 "R" none (resolveDepth (some 1)) [] = some (.ok [relR]) ∧
    resolveF envRD optsRec 9 "R" none (resolveDepth (some 2)) [] = some (.ok [relR, relD1]) ∧
    relD2 ∉ [relR, relD1] ∧
    resolveF envRD optsRec 9 "R" none (resolveDepth (some 3)) [] =
      some (.ok [relR, relD1, relD2]) := by decide

/-- Claim C2, counterexample: parsing `"cargo@"` keeps the trailing `@` in
the name — the result is the query named `"cargo@"`, not `"cargo"`, because
the fallback match arm reuses the whole input string as the name. -/
theorem c2_counterexample :
    Query.from_str "cargo@" = .ok ⟨"cargo@", none, none⟩ ∧
    ("cargo@" : String) ≠ "cargo" := by decide

/-- Claim C2, amended: query parsing splits on the first `@`; `"cargo"`
yields name `"cargo"` with no constraint; `"cargo@0.12"` yields name
`"cargo"` with the constraint parsed from `"0.12"`; and `"cargo@"` (empty
suffix) yields no constraint but keeps the whole input, trailing `@`
included, as the name. -/
theorem c2_parse_theorem :
    Query.from_str "cargo" = .ok ⟨"cargo", none, none⟩ ∧
    Query.from_str "cargo@0.12" =
      .ok ⟨"cargo", some ⟨[⟨Op.caret, 0, some 12, none⟩]⟩, none⟩ ∧
    Query.from_str "cargo@" = .ok ⟨"cargo@", none, none⟩ := by decide

/-- Claim C3, counterexample: an input consisting of a single blank line
fails with a `Deserialize` error (the blank line is not a JSON value), not
with the `FromIndexFile "empty"` error the claim promises for all
blank-line-only inputs. -/
theorem c3_counterexample :
    Package.from_index modelJsonParse "\n" ≠ .error (.FromIndexFile "empty") ∧
    Package.from_index modelJsonParse "\n" =
      .error (.Deserialize "EOF while parsing a value") := by decide

/-- Claim C3, amended: the `"empty"` index error arises exactly for the
zero-line input (the empty string); an input whose first line fails to
deserialize — in particular one made only of blank lines — fails with that
line's `Deserialize` error instead; and a successful parse never yields a
package with zero releases. -/
theorem c3_empty_index_theorem :
    (∀ (parseLine : String → Except Error Release),
      Package.from_index parseLine "" = .error (.FromIndexFile "empty")) ∧
    (∀ (parseLine : String → Except Error Release) (content : String) (pkg : Package),
      Package.from_index parseLine content = .ok pkg → pkg.releases ≠ []) ∧
    (∀ (parseLine : String → Except Error Release) (content : String)
       (l : String) (ls : List String) (e : Error),
      rustLines content = l :: ls → parseLine l = .error e →
        Package.from_index parseLine content = .error e) :=
  ⟨fun _ => rfl, from_index_ok_nonempty, from_index_first_error⟩

/-- Claim C3, witness: the amended theorem applied to the one-blank-line
input under the modelled `serde_json` deserializer. -/
theorem c3_empty_index_witness :
    Package.from_index modelJsonParse "\n" =
      .error (.Deserialize "EOF while parsing a value") :=
  c3_empty_index_theorem.2.2 modelJsonParse "\n" "" [] _ (by decide) (by decide)

/-- Claim C4: for the cyclic graph in which A depends on B and B depends
back on A at any mutually satisfying versions (any requirements whose
rendering round-trips through the parser, as every requirement built by the
resolver's `"{name}@{req}"` spec does), recursive resolution with infinite
depth terminates — the result is stable for every fuel from 3 on — and A
and B each appear exactly once; and the cycle guard holds exactly when the
accumulator already has a release whose name equals the dependency's
effective name (`package` if renamed, else `name`) and whose version
satisfies the dependency's requirement, a skip leaving the loop to continue
with the remaining dependencies. -/
theorem c4_cycle_theorem :
    (∀ (vA vB : Version) (reqAB reqBA : VersionReq),
      reqAB.matches vB = true → reqBA.matches vA = true →
      VersionReq.parse (VersionReq.render reqAB) = some reqAB →
      ∀ (fuel : Nat), 3 ≤ fuel →
        resolveF (envOf (regAB vA vB reqAB reqBA)) optsRec fuel "A" none .infinite [] =
          some (.ok [relAg vA reqAB, relBg vB reqBA]) ∧
        ([relAg vA reqAB, relBg vB reqBA].countP (fun r => r.name == "A") = 1 ∧
         [relAg vA reqAB, relBg vB reqBA].countP (fun r => r.name == "B") = 1)) ∧
    (∀ (resolved : List Release) (sub : Dependency),
      cycleGuard resolved (sub.package.getD sub.name) sub.req = true ↔
        ∃ res ∈ resolved, sub.package.getD sub.name = res.name ∧
          sub.req.matches res.vers = true) ∧
    (∀ (recur : String → List Release → Option (Except MainError (List Release)))
       (sub : Dependency) (rest : List Dependency) (resolved : List Release),
      cycleGuard resolved (sub.package.getD sub.name) sub.req = true →
        resolveStepDeps recur (sub :: rest) resolved = resolveStepDeps recur rest resolved) := by
  refine ⟨?_, ?_, ?_⟩
  · intro vA vB reqAB reqBA hm1 hm2 hp1 fuel hf
    exact ⟨resolveF_mono _ _ 3 fuel hf _ _ _ _ _ (cycle_run vA vB reqAB reqBA hm1 hm2 hp1),
      rfl, rfl⟩
  · intro resolved sub
    simp [cycleGuard, List.any_eq_true, Bool.and_eq_true, beq_iff_eq]
  · intro recur sub rest resolved hg
    simp only [resolveStepDeps]
    rw [if_pos hg]

/-- Claim C4, witness: the cyclic scenario at versions 1.0.0 with mutual
`^1.0.0` requirements and fuel 3. -/
theorem c4_cycle_witness :
    resolveF (envOf (regAB ⟨1, 0, 0⟩ ⟨1, 0, 0⟩ req100 req100)) optsRec 3
        "A" none .infinite [] =
      some (.ok [relAg ⟨1, 0, 0⟩ req100, relBg ⟨1, 0, 0⟩ req100]) ∧
    ([relAg ⟨1, 0, 0⟩ req100, relBg ⟨1, 0, 0⟩ req100].countP (fun r => r.name == "A") = 1 ∧
     [relAg ⟨1, 0, 0⟩ req100, relBg ⟨1, 0, 0⟩ req100].countP (fun r => r.name == "B") = 1) :=
  c4_cycle_theorem.1 ⟨1, 0, 0⟩ ⟨1, 0, 0⟩ req100 req100
    (by decide) (by decide) (by decide) 3 (by decide)

/-- Claim C5: on the catalog `[0.1.8, 0.1.11 (yanked), 0.1.12]` in oldest to
newest order, `into_version`/`version` return `0.1.12` for `^0.1.0` and the
yanked `0.1.11` for `=0.1.11` — the scan runs over the reversed release
list, newest first, with no yanked filtering. -/
theorem c5_matching_theorem :
    VersionReq.parse "^0.1.0" = some caret010 ∧
    VersionReq.parse "=0.1.11" = some exact0111 ∧
    pkgLibc.releases = [libc008, libc0111, libc0112] ∧
    pkgLibc.into_version caret010 = some libc0112 ∧
    pkgLibc.into_version exact0111 = some libc0111 ∧
    libc0111.yanked = true ∧
    pkgLibc.version caret010 = some libc0112 ∧
    pkgLibc.version exact0111 = some libc0111 ∧
    (∀ (p : Package) (req : VersionReq),
      p.into_version req = p.releases.reverse.find? (fun r => req.matches r.vers) ∧
      p.version req = p.releases.reverse.find? (fun r => req.matches r.vers)) :=
  ⟨by decide, by decide, by decide, by decide, by decide, by decide, by decide, by decide,
   fun p req => ⟨rfl, rfl⟩⟩

/-- Claim C6: for every non-empty ASCII package name, `get_index_path`
succeeds and equals the specified branch-by-length formula with the result
lower-cased, and the four documented examples hold. (Totality outside
non-empty ASCII names is the subject of claim C10.) -/
theorem c6_index_path_theorem :
    (∀ (p : List Nat), p ≠ [] → (∀ b ∈ p, b < 0x80) →
      get_index_path p = some (specIndexPath p)) ∧
    get_index_path (utf8Bytes "cargo") = some (utf8Bytes "ca/rg/cargo") ∧
    get_index_path (utf8Bytes "ice") = some (utf8Bytes "3/i/ice") ∧
    get_index_path (utf8Bytes "a") = some (utf8Bytes "1/a") ∧
    get_index_path (utf8Bytes "ab") = some (utf8Bytes "2/ab") ∧
    get_index_path (utf8Bytes "AbcDefGH") = some (utf8Bytes "ab/cd/abcdefgh") :=
  ⟨gip_ascii, by decide, by decide, by decide, by decide, by decide⟩

/-- Claim C6, witness: the general branch applied to the name `libc`. -/
theorem c6_index_path_witness :
    get_index_path (utf8Bytes "libc") = some (specIndexPath (utf8Bytes "libc")) :=
  c6_index_path_theorem.1 (utf8Bytes "libc") (by decide) (by decide)

/-- Claim C7: for a resolution step whose query parses, if the submit yields
no matching release (`Ok(None)`) or fails (`Err`), then with ignore-missing
enabled the step succeeds leaving the accumulator unchanged, and with
ignore-missing disabled an `Ok(None)` surfaces the "no matching release"
message naming the spec while an `Err` propagates — no success with a
partial result. -/
theorem c7_ignore_missing_theorem (env : Query → Except Error (Option Release))
    (opts : Options) (fuel : Nat) (package : String) (index : Option String)
    (depth : Depth) (resolved : List Release) (query : Query)
    (hq : resolveQuery package index = .ok query) :
    (env query = .ok none → opts.ignore_missing = true →
      resolveF env opts (fuel + 1) package index depth resolved = some (.ok resolved)) ∧
    (env query = .ok none → opts.ignore_missing = false →
      resolveF env opts (fuel + 1) package index depth resolved =
        some (.error (.message ("failed to find a matching release of `" ++ package ++ "`")))) ∧
    (∀ e, env query = .error e → opts.ignore_missing = true →
      resolveF env opts (fuel + 1) package index depth resolved = some (.ok resolved)) ∧
    (∀ e, env query = .error e → opts.ignore_missing = false →
      resolveF env opts (fuel + 1) package index depth resolved = some (.error (.lib e))) := by
  refine ⟨fun henv him => ?_, fun henv him => ?_, fun e henv him => ?_, fun e henv him => ?_⟩ <;>
    simp [resolveF, hq, henv, him]

/-- Claim C7, witness: against an empty registry (every fetch fails) with
ignore-missing disabled, the fetch error propagates. -/
theorem c7_ignore_missing_witness :
    resolveF (envOf []) optsRec 1 "cargo" none .infinite [] =
      some (.error (.lib (.Request "status 404"))) :=
  (c7_ignore_missing_theorem (envOf []) optsRec 0 "cargo" none .infinite []
    ⟨"cargo", none, none⟩ (by decide)).2.2.2 (.Request "status 404") (by decide) rfl

/-- Claim C8, counterexample: parsing accepts the empty string and produces
a query whose name is empty — the non-empty-name invariant is not enforced
by parsing. -/
theorem c8_counterexample :
    Query.from_str "" = .ok ⟨"", none, none⟩ ∧
    Query.name ⟨"", none, none⟩ = "" := by decide

/-- Claim C8, amended: parsing enforces nothing about the name — it accepts
`""` and `"@<req>"` with an empty name; the name is non-empty whenever the
input is non-empty and does not start with `@`. -/
theorem c8_nonempty_name_theorem (s : String) (q : Query)
    (h : Query.from_str s = .ok q) (hne : s ≠ "")
    (hat : s.data.head? ≠ some '@') : q.name ≠ "" := by
  unfold Query.from_str at h
  cases hsplit : splitOnce s '@' with
  | none =>
    rw [hsplit] at h
    dsimp only at h
    obtain rfl : (⟨s, none, none⟩ : Query) = q := Except.ok.inj h
    exact hne
  | some nv =>
    obtain ⟨n, v⟩ := nv
    rw [hsplit] at h
    dsimp only at h
    by_cases hv : !v.isEmpty
    · rw [if_pos hv] at h
      dsimp only at h
      unfold splitOnce at hsplit
      cases haux : splitOnceAux '@' s.data with
      | none => rw [haux] at hsplit; exact absurd hsplit (by simp)
      | some pq =>
        obtain ⟨pre, post⟩ := pq
        rw [haux] at hsplit
        simp only [Option.map_some', Option.some.injEq, Prod.mk.injEq] at hsplit
        obtain ⟨hn, hvv⟩ := hsplit
        have hdata := splitOnceAux_append '@' s.data pre post haux
        have hpre : pre ≠ [] := by
          intro hnil
          rw [hnil] at hdata
          rw [hdata] at hat
          simp at hat
        cases hparse : VersionReq.parse v with
        | none => rw [hparse] at h; exact absurd h (by simp)
        | some req =>
          rw [hparse] at h
          obtain rfl : (⟨n, some req, none⟩ : Query) = q := Except.ok.inj h
          show n ≠ ""
          rw [← hn]
          intro hcon
          apply hpre
          have hd : (String.mk pre).data = ("" : String).data := by rw [hcon]
          simpa using hd
    · rw [if_neg hv] at h
      dsimp only at h
      obtain rfl : (⟨s, none, none⟩ : Query) = q := Except.ok.inj h
      exact hne

/-- Claim C8, witness: the amended theorem applied to the input `cargo`. -/
theorem c8_nonempty_name_witness :
    Query.name ⟨"cargo", none, none⟩ ≠ "" :=
  c8_nonempty_name_theorem "cargo" ⟨"cargo", none, none⟩ (by decide) (by decide) (by decide)

/-- Claim C9: `with_index` sets the custom index to the supplied location
and leaves name and version requirement unchanged (value semantics — the
receiver is a value, the result a new value); the index base used by a
subsequent fetch is the supplied location, while without a custom index it
is the default crates.io URL. -/
theorem c9_with_index_theorem (q : Query) (idx : String) :
    (q.with_index idx).custom_index = some idx ∧
    (q.with_index idx).name = q.name ∧
    (q.with_index idx).version_req = q.version_req ∧
    (q.with_index idx).index_url = idx ∧
    (⟨q.name, q.version_req, none⟩ : Query).index_url = CRATES_IO_INDEX_URL := by
  simp [Query.with_index, Query.index_url]

/-- Claim C10, counterexample: the name `éé` is non-empty and non-ASCII,
yet `get_index_path` does not panic on it — its UTF-8 length is 4 and the
byte boundaries 2 and 4 fall on character boundaries, so the panicking
inputs are not avoided *only* by non-empty ASCII names. -/
theorem c10_counterexample :
    get_index_path (utf8Bytes "éé") = some (utf8Bytes "é/é/éé") ∧
    (0xC3 : Nat) ∈ utf8Bytes "éé" ∧ ¬((0xC3 : Nat) < 0x80) := by decide

/-- Claim C10, amended: `get_index_path` is not total — it panics (modelled
as `none`) on the empty name, on any 3-byte name whose boundary at byte 1
splits a multi-byte character, and on any name of 4 or more bytes whose
boundary at byte 2 or 4 does; every non-empty ASCII name avoids the panic
(though not only those, per the counterexample). -/
theorem c10_panic_theorem :
    (get_index_path [] = none) ∧
    (∀ (p : List Nat), p.length = 3 → isCharBoundary p 1 = false →
      get_index_path p = none) ∧
    (∀ (p : List Nat), 4 ≤ p.length →
      (isCharBoundary p 2 = false ∨ isCharBoundary p 4 = false) →
      get_index_path p = none) ∧
    (∀ (p : List Nat), p ≠ [] → (∀ b ∈ p, b < 0x80) →
      (get_index_path p).isSome = true) :=
  ⟨by decide, gip_len3_panic, gip_len4_panic,
   fun p hne hascii => by rw [gip_ascii p hne hascii]; rfl⟩

/-- Claim C10, witness: the 3-byte name `éa` (boundary at byte 1 splits the
two-byte `é`) panics. -/
theorem c10_panic_witness :
    get_index_path (utf8Bytes "éa") = none :=
  c10_panic_theorem.2.1 (utf8Bytes "éa") (by decide) (by decide)

end CargoLookup
